import Mathlib

/-!
Verification of the nextlight audio-analyzer measurement pipeline.

Shallow embedding of the repository's core signal-processing routines and
orchestration protocol:
  * `src/workers/essentia.worker.ts` — true-peak estimation, stereo width,
    silence boundary detection, the BPM/key fallback cascade, and the
    worker-side message emission;
  * `src/analysis/analyzer.ts` — single-flight worker startup and the
    client-side per-call message listeners;
  * `src/hooks/useAudioFile.ts` — raw-container sample-rate sniffing;
  * `src/hooks/useBatchAnalysis.ts` — sequential batch processing with
    per-item failure isolation.

Audio samples are modelled as exact rationals (`ℚ`): every claim settled
here concerns signs, zeros, orderings and structural behaviour that IEEE
rounding preserves.  JavaScript `Number` indexing idioms (`a[i] ?? 0`,
out-of-range reads behind explicit bounds guards) are rendered with
`List.getD`.
-/

/- ============================================================ -/
/- TruePeakEstimator: `computeTruePeak` in essentia.worker.ts   -/
/- ============================================================ -/

/-- First pass of `computeTruePeak`: the coarse sample-domain maximum
absolute amplitude across both channels (`maxSample` in the source). -/
def maxSampleOf (left right : List ℚ) : ℚ :=
  (left ++ right).foldl (fun m x => if |x| > m then |x| else m) 0

/-- Cubic Hermite interpolant of `computeTruePeak`, evaluated at the three
fractional offsets 0.25, 0.5, 0.75 between `y1` and `y2`. -/
def hermiteVals (y0 y1 y2 y3 : ℚ) : List ℚ :=
  let a := -(1/2) * y0 + (3/2) * y1 - (3/2) * y2 + (1/2) * y3
  let b := y0 - (5/2) * y1 + 2 * y2 - (1/2) * y3
  let c := -(1/2) * y0 + (1/2) * y2
  let d := y1
  [1/4, 1/2, 3/4].map (fun t => ((a * t + b) * t + c) * t + d)

/-- One interior position of the oversampling loop: skip when both the
sample and its successor are below the interpolation threshold, otherwise
fold the three interpolated values into the running maximum. -/
def oversampleStep (samples : List ℚ) (threshold : ℚ) (i : Nat) (m : ℚ) : ℚ :=
  if |samples.getD i 0| < threshold ∧ |samples.getD (i + 1) 0| < threshold then m
  else
    (hermiteVals (samples.getD (i - 1) 0) (samples.getD i 0)
        (samples.getD (i + 1) 0) (samples.getD (i + 2) 0)).foldl
      (fun acc v => if |v| > acc then |v| else acc) m

/-- The per-channel oversampling loop of `computeTruePeak`:
`for (let i = 1; i < samples.length - 2; i++)`. -/
def channelOversampleMax (samples : List ℚ) (threshold : ℚ) (m : ℚ) : ℚ :=
  (List.range' 1 (samples.length - 3)).foldl
    (fun acc i => oversampleStep samples threshold i acc) m

/-- The maximum absolute value tracked by `computeTruePeak` across coarse
samples and all evaluated interpolated points (`maxAbs` in the source). -/
def computeMaxAbs (left right : List ℚ) : ℚ :=
  let maxSample := maxSampleOf left right
  let threshold := maxSample * (707/1000)
  channelOversampleMax right threshold
    (channelOversampleMax left threshold maxSample)

/-- The true-peak result: `-Infinity` for silence, otherwise a dB value. -/
inductive TruePeakVal where
  | negInf : TruePeakVal
  | dB (x : ℝ) : TruePeakVal
deriving Inhabited

/-- `computeTruePeak` from essentia.worker.ts: returns −∞ when the coarse
maximum is zero, otherwise `20 * log10(maxAbs)`. -/
noncomputable def computeTruePeak (left right : List ℚ) : TruePeakVal :=
  if maxSampleOf left right = 0 then .negInf
  else .dB (20 * Real.logb 10 ((computeMaxAbs left right : ℚ) : ℝ))

/- ============================================================ -/
/- StereoWidthAnalyzer: the mid/side loop in `runAnalysis`      -/
/- ============================================================ -/

/-- The mid/side accumulation loop of `runAnalysis`
(`for (let i = 0; i < len; i++)` over the common length), rendered as a
paired recursion that stops at the shorter channel. -/
def stereoSumsAux : List ℚ → List ℚ → ℚ × ℚ → ℚ × ℚ
  | l :: ls, r :: rs, acc =>
      let mid := (l + r) * (1/2)
      let side := (l - r) * (1/2)
      stereoSumsAux ls rs (acc.1 + mid * mid, acc.2 + side * side)
  | _, _, acc => acc

/-- `(midSumSq, sideSumSq)` of `runAnalysis`. -/
def stereoSums (left right : List ℚ) : ℚ × ℚ :=
  stereoSumsAux left right (0, 0)

/-- The stereo width computed by `runAnalysis`:
`midRMS > 0 ? sideRMS / midRMS : 0` with RMS = sqrt(sumSq / len). -/
noncomputable def stereoWidth (left right : List ℚ) : ℝ :=
  let len : ℕ := min left.length right.length
  let s := stereoSums left right
  let midRMS := Real.sqrt ((s.1 : ℝ) / (len : ℝ))
  let sideRMS := Real.sqrt ((s.2 : ℝ) / (len : ℝ))
  if midRMS > 0 then sideRMS / midRMS else 0

/-- Root-mean-square of a sample list, as the spec words it. -/
noncomputable def specRMS (v : List ℚ) : ℝ :=
  Real.sqrt ((((v.map (fun x => x * x)).sum : ℚ) : ℝ) / (v.length : ℝ))

/-- The spec's formulation of stereo width (§4.3): mid = (L+R)/2 and
side = (L−R)/2 per sample over the common length (shorter of the two),
`width = RMS(side)/RMS(mid)`, and 0 when `RMS(mid)` is 0.  Stated from the
spec's words, to be compared with `stereoWidth`. -/
noncomputable def stereoWidthSpec (left right : List ℚ) : ℝ :=
  let mids := List.zipWith (fun l r => (l + r) / 2) left right
  let sides := List.zipWith (fun l r => (l - r) / 2) left right
  if specRMS mids = 0 then 0 else specRMS sides / specRMS mids

/- ============================================================ -/
/- SilenceBoundaryDetector: `runQualityCheck`                   -/
/- ============================================================ -/

/-- Silence threshold of `runQualityCheck` (`THRESHOLD = 0.001`). -/
def silenceThreshold : ℚ := 1/1000

/-- The `quality` fragment posted by `runQualityCheck`. -/
structure QualityData where
  startAmplitude : ℚ
  endAmplitude : ℚ
  startIsZero : Bool
  endIsZero : Bool
  headSilence : ℚ
  tailSilence : ℚ
deriving DecidableEq

/-- `runQualityCheck` from essentia.worker.ts: first/last absolute
amplitudes, effective-zero flags, and head/tail silence durations obtained
by counting consecutive samples not above the threshold from each end. -/
def runQualityCheck (audioData : List ℚ) (sampleRate : ℚ) : QualityData :=
  let startAmplitude := |audioData.headD 0|
  let endAmplitude := |audioData.getLastD 0|
  let headSilenceSamples :=
    (audioData.takeWhile (fun x => !(|x| > silenceThreshold))).length
  let tailSilenceSamples :=
    (audioData.reverse.takeWhile (fun x => !(|x| > silenceThreshold))).length
  { startAmplitude := startAmplitude
    endAmplitude := endAmplitude
    startIsZero := decide (startAmplitude < silenceThreshold)
    endIsZero := decide (endAmplitude < silenceThreshold)
    headSilence := (headSilenceSamples : ℚ) / sampleRate
    tailSilence := (tailSilenceSamples : ℚ) / sampleRate }

/-- Structural form of the accumulated mid-channel energy of `runAnalysis`,
used to reason about `stereoSumsAux`. -/
def midSqSum : List ℚ → List ℚ → ℚ
  | l :: ls, r :: rs => ((l + r) * (1/2)) * ((l + r) * (1/2)) + midSqSum ls rs
  | _, _ => 0

/-- Structural form of the accumulated side-channel energy of
`runAnalysis`. -/
def sideSqSum : List ℚ → List ℚ → ℚ
  | l :: ls, r :: rs => ((l - r) * (1/2)) * ((l - r) * (1/2)) + sideSqSum ls rs
  | _, _ => 0

/- ============================================================ -/
/- Worker message protocol (essentia.worker.ts)                 -/
/- ============================================================ -/

/-- Result object of the external `LoudnessEBUR128` call.  Fields are
`Option`-valued to model the `??` null-coalescing reads in the source;
the integrated loudness itself may be −∞, hence `EReal`. -/
structure EbuOut where
  integratedLoudness : Option EReal
  loudnessRange : Option ℝ
  momentaryLoudness : Option (List ℝ)
  shortTermLoudness : Option (List ℝ)

/-- The `loudness` part of the fragment posted by `runAnalysis`. -/
structure LoudnessData where
  integratedLUFS : EReal
  loudnessRange : ℝ
  truePeakDBTP : TruePeakVal
  momentaryLoudness : List ℝ
  shortTermLoudness : List ℝ

/-- The `stereo` part of the fragment posted by `runAnalysis`. -/
structure StereoData where
  width : ℝ

/-- The payload of the `bpmKeyComplete` message. -/
structure BpmKeyData where
  bpm : ℚ
  bpmConfidence : ℚ
  key : String
  scale : String
  keyStrength : ℚ

/-- Payload of a `partial` worker message: either the loudness/stereo
fragment of `runAnalysis` or the quality fragment of `runQualityCheck`. -/
inductive AnalysisFragment where
  | loudnessStereo (loudness : LoudnessData) (stereo : StereoData)
  | quality (quality : QualityData)

/-- Messages posted by the worker (the `partial` message type of the
source is named `fragment` here). -/
inductive WorkerMsg where
  | ready (version : String)
  | progress (phase : String) (percent : ℚ) (label : String)
  | fragment (data : AnalysisFragment)
  | complete
  | bpmKeyComplete (data : BpmKeyData)
  | error (message : String)

/-- The message sequence emitted by `runAnalysis`: three progress messages
and one loudness/stereo fragment.  The external `LoudnessEBUR128` call is
fallible (`Except`); its failure is caught in the source and only changes
the fragment's loudness fields, never the message structure. -/
noncomputable def runAnalysisMsgs (ebu : Except Unit EbuOut)
    (_sampleRate : ℚ) (left right : List ℚ) : List WorkerMsg :=
  [.progress "phase1" 5 "LUFS解析中...",
   .progress "phase1" 40 "True Peak解析中...",
   .progress "phase1" 70 "解析結果まとめ中...",
   .fragment (.loudnessStereo
     { integratedLUFS := match ebu with
        | .ok e => e.integratedLoudness.getD ⊥
        | .error _ => ⊥
       loudnessRange := match ebu with
        | .ok e => e.loudnessRange.getD 0
        | .error _ => 0
       truePeakDBTP := computeTruePeak left right
       momentaryLoudness := match ebu with
        | .ok e => e.momentaryLoudness.getD []
        | .error _ => []
       shortTermLoudness := match ebu with
        | .ok e => e.shortTermLoudness.getD []
        | .error _ => [] }
     { width := stereoWidth left right })]

/-- The worker's `analyze` handler on its success path: `runAnalysis`,
then `runQualityCheck` on the left channel, then the final done/complete
pair.  `left := leftChannel ?? audioData`, `right := rightChannel ?? left`
as in the source. -/
noncomputable def handleAnalyze (ebu : Except Unit EbuOut) (audioData : List ℚ)
    (leftChannel rightChannel : Option (List ℚ)) (sampleRate : ℚ) : List WorkerMsg :=
  let left := leftChannel.getD audioData
  let right := rightChannel.getD left
  runAnalysisMsgs ebu sampleRate left right
    ++ [.fragment (.quality (runQualityCheck left sampleRate))]
    ++ [.progress "done" 100 "解析完了", .complete]

/- ============================================================ -/
/- BpmKeyCascade (runBpmKeyAnalysis)                            -/
/- ============================================================ -/

/-- Result object of the external `RhythmExtractor2013` call (tier 1). -/
structure RhythmOut where
  bpm : Option ℚ
  confidence : Option ℚ

/-- Result object of the external `PercivalBpmEstimator` call (tier 2). -/
structure PercivalOut where
  bpm : Option ℚ

/-- Result object of the external `KeyExtractor` / `Key` calls. -/
structure KeyOut where
  key : Option String
  scale : Option String
  strength : Option ℚ

/-- The tempo cascade of `runBpmKeyAnalysis`: tier 1 gives bpm and
confidence; on its failure tier 2 gives bpm only (confidence left at 0);
on both failing, bpm 0 and confidence 0. -/
def bpmCascadeResult (t1 : Except Unit RhythmOut) (t2 : Except Unit PercivalOut) :
    ℚ × ℚ :=
  match t1 with
  | .ok r => (r.bpm.getD 0, r.confidence.getD 0)
  | .error _ =>
    match t2 with
    | .ok p => (p.bpm.getD 0, 0)
    | .error _ => (0, 0)

/-- JavaScript `Math.round` on nonnegative values: floor of x + 1/2. -/
def jsRound (x : ℚ) : ℤ := ⌊x + 1/2⌋

/-- `numFrames = Math.floor((audioData.length - frameSize) / hopSize) + 1`
of the key fallback tier, with frameSize 4096 and hopSize 2048. -/
def numFramesOf (len : Nat) : ℤ := Int.fdiv ((len : ℤ) - 4096) 2048 + 1

/-- Behaviour of the external spectral calls inside the key fallback tier:
`throwAt = some s` means the external call in frame `s` throws (caught by
the fallback's catch); `keyOut` is the outcome of the final `Key` call on
the averaged HPCP. -/
structure KeyFallbackBeh where
  throwAt : Option Nat
  keyOut : Except Unit KeyOut

/-- Number of fallback frames that complete their loop body. -/
def keyFallbackFrames (len : Nat) (beh : KeyFallbackBeh) : Nat :=
  let nf := (numFramesOf len).toNat
  match beh.throwAt with
  | none => nf
  | some s => min nf s

/-- Progress messages emitted by the key fallback tier: one per completed
frame index divisible by 50, at percent `50 + round((f / numFrames) * 30)`. -/
def keyFallbackProgress (len : Nat) (beh : KeyFallbackBeh) : List WorkerMsg :=
  ((List.range (keyFallbackFrames len beh)).filter (fun f => f % 50 == 0)).map
    (fun f => .progress "phase1"
      ((50 : ℚ) + ((jsRound (((f : ℚ) / ((numFramesOf len : ℤ) : ℚ)) * 30) : ℤ) : ℚ))
      "HPCP計算中...")

/-- Whether an external call throws inside the fallback frame loop. -/
def keyFallbackThrew (len : Nat) (beh : KeyFallbackBeh) : Bool :=
  match beh.throwAt with
  | some s => s < (numFramesOf len).toNat
  | none => false

/-- The key cascade of `runBpmKeyAnalysis`: tier 1 is `KeyExtractor`; on
its failure the frame-by-frame HPCP fallback runs, leaving the defaults
('', '', 0) when it throws mid-loop, when no frame is valid, or when the
final `Key` call fails. -/
def keyCascadeResult (k1 : Except Unit KeyOut) (len : Nat) (beh : KeyFallbackBeh) :
    String × String × ℚ :=
  match k1 with
  | .ok k => (k.key.getD "", k.scale.getD "", k.strength.getD 0)
  | .error _ =>
    if keyFallbackThrew len beh then ("", "", 0)
    else if 0 < (numFramesOf len).toNat then
      match beh.keyOut with
      | .ok k => (k.key.getD "", k.scale.getD "", k.strength.getD 0)
      | .error _ => ("", "", 0)
    else ("", "", 0)

/-- The message sequence emitted by `runBpmKeyAnalysis`, parameterized by
the outcomes of the external estimator calls. -/
def runBpmKeyMsgs (t1 : Except Unit RhythmOut) (t2 : Except Unit PercivalOut)
    (k1 : Except Unit KeyOut) (beh : KeyFallbackBeh)
    (audioData : List ℚ) (_sampleRate : ℚ) : List WorkerMsg :=
  let bc := bpmCascadeResult t1 t2
  let ks := keyCascadeResult k1 audioData.length beh
  [.progress "phase1" 10 "BPM解析中...",
   .progress "phase1" 50 "Key解析中..."]
  ++ (match k1 with
      | .ok _ => []
      | .error _ => keyFallbackProgress audioData.length beh)
  ++ [.progress "phase1" 90 "結果まとめ中...",
      .bpmKeyComplete
        { bpm := bc.1, bpmConfidence := bc.2,
          key := ks.1, scale := ks.2.1, keyStrength := ks.2.2 }]

/-- The worker's `analyzeBpmKey` handler on its success path:
`runBpmKeyAnalysis` followed by the final done/complete pair. -/
def handleBpmKey (t1 : Except Unit RhythmOut) (t2 : Except Unit PercivalOut)
    (k1 : Except Unit KeyOut) (beh : KeyFallbackBeh)
    (audioData : List ℚ) (sampleRate : ℚ) : List WorkerMsg :=
  runBpmKeyMsgs t1 t2 k1 beh audioData sampleRate
    ++ [.progress "done" 100 "解析完了", .complete]

/- ============================================================ -/
/- Client-side listeners (analyzer.ts)                          -/
/- ============================================================ -/

/-- The (phase, percent) pairs of the progress messages in a message
sequence, in emission order. -/
def progressEntries (ms : List WorkerMsg) : List (String × ℚ) :=
  ms.filterMap (fun m => match m with
    | .progress phase percent _ => some (phase, percent)
    | _ => none)

/-- Messages on which the `analyze` listener detaches. -/
def analyzeTerminal : WorkerMsg → Bool
  | .complete => true
  | .error _ => true
  | _ => false

/-- Messages on which the `analyzeBpmKey` listener detaches. -/
def bpmKeyTerminal : WorkerMsg → Bool
  | .bpmKeyComplete _ => true
  | .error _ => true
  | _ => false

/-- The messages a per-call listener observes from an emitted sequence:
every message in order up to and including the first terminal one, after
which the listener is removed. -/
def observedMsgs (isTerm : WorkerMsg → Bool) : List WorkerMsg → List WorkerMsg
  | [] => []
  | m :: rest => if isTerm m then [m] else m :: observedMsgs isTerm rest

/-- Outcome of a call's promise. -/
inductive CallOutcome (α : Type) where
  | pending
  | resolved (value : α)
  | rejected (message : String)

/-- How the `analyzeBpmKey` promise settles on a message sequence: the
first `bpmKeyComplete` resolves it, the first `error` rejects it. -/
def clientOutcomeBpmKey : List WorkerMsg → CallOutcome BpmKeyData
  | [] => .pending
  | .bpmKeyComplete d :: _ => .resolved d
  | .error m :: _ => .rejected m
  | _ :: rest => clientOutcomeBpmKey rest

/- ============================================================ -/
/- Single-flight worker startup (ensureInit in analyzer.ts)     -/
/- ============================================================ -/

/-- Module-level state of analyzer.ts: the `workerReady` flag and the
memoized `initPromise` (an in-flight attempt identified by a sequence
number), together with a count of startup attempts actually triggered. -/
structure InitState where
  workerReady : Bool
  initPromise : Option Nat
  attemptsStarted : Nat
deriving DecidableEq

/-- The fresh module state before any `init` call. -/
def initStateStart : InitState :=
  { workerReady := false, initPromise := none, attemptsStarted := 0 }

/-- What an `ensureInit` call hands back to its caller: the memoized
`Promise.resolve('cached')` when the worker is already ready, otherwise a
share of the (possibly freshly started) in-flight attempt. -/
inductive InitCallRes where
  | cached
  | awaiting (attempt : Nat)
deriving DecidableEq

/-- `ensureInit` from analyzer.ts: return 'cached' when ready; otherwise
join the in-flight attempt when one exists; otherwise start a new attempt
and memoize it. -/
def ensureInit (s : InitState) : InitCallRes × InitState :=
  if s.workerReady then (.cached, s)
  else
    match s.initPromise with
    | some a => (.awaiting a, s)
    | none =>
      (.awaiting s.attemptsStarted,
       { workerReady := s.workerReady, initPromise := some s.attemptsStarted,
         attemptsStarted := s.attemptsStarted + 1 })

/-- The string an `init` promise resolves with, given the version string
the collaborator reports for each attempt: the in-flight attempt resolves
with `e.data.version`, while the ready-flag shortcut resolves with the
literal string 'cached'. -/
def initResolvedString (version : Nat → String) : InitCallRes → String
  | .cached => "cached"
  | .awaiting a => version a

/-- The `ready` branch of the `ensureInit` handler: set `workerReady`;
the memoized promise is left in place. -/
def onInitReady (s : InitState) : InitState := { s with workerReady := true }

/-- The `error` branch of the `ensureInit` handler: clear `initPromise`
so a later call may retry; `workerReady` is untouched. -/
def onInitError (s : InitState) : InitState := { s with initPromise := none }

/- ============================================================ -/
/- SampleRateSniffer (getOriginalSampleRate in useAudioFile.ts) -/
/- ============================================================ -/

/-- `u8[i]`: read a byte of the file, 0 out of range (all reads in the
source are either behind explicit bounds guards or compared against
constants, so the default never changes the modelled outcome). -/
def u8at (b : List Nat) (i : Nat) : Nat := b.getD i 0

/-- `dv.getUint32(i, true)`: little-endian 32-bit read. -/
def readUint32LE (b : List Nat) (i : Nat) : Nat :=
  u8at b i + 256 * u8at b (i + 1) + 65536 * u8at b (i + 2)
    + 16777216 * u8at b (i + 3)

/-- The WAV chunk walk of `getOriginalSampleRate`: from `pos`, read the
4-byte chunk id and little-endian 32-bit size; on `fmt ` (with the
sample-rate field in bounds) return the rate at `pos + 12`; otherwise
advance by 8 + size plus one pad byte for odd sizes. -/
def wavFindFmt (b : List Nat) (pos : Nat) : Option Nat :=
  if h : pos + 8 < b.length then
    let size := readUint32LE b (pos + 4)
    if u8at b pos = 0x66 ∧ u8at b (pos + 1) = 0x6D ∧ u8at b (pos + 2) = 0x74
        ∧ u8at b (pos + 3) = 0x20 ∧ pos + 12 + 4 ≤ b.length then
      some (readUint32LE b (pos + 12))
    else
      wavFindFmt b (pos + 8 + size + (if size % 2 ≠ 0 then 1 else 0))
  else none
termination_by b.length - pos
decreasing_by omega

/-- The (MPEG version, sample-rate index) table of the MP3 branch. -/
def mp3SampleRateTable (ver idx : Nat) : Option Nat :=
  match ver, idx with
  | 3, 0 => some 44100
  | 3, 1 => some 48000
  | 3, 2 => some 32000
  | 2, 0 => some 22050
  | 2, 1 => some 24000
  | 2, 2 => some 16000
  | 0, 0 => some 11025
  | 0, 1 => some 12000
  | 0, 2 => some 8000
  | _, _ => none

/-- The MP3 frame-sync scan of `getOriginalSampleRate`. -/
def mp3ScanFrom (b : List Nat) (i stop : Nat) : Option Nat :=
  if h : i < stop then
    if u8at b i = 0xFF ∧ (u8at b (i + 1)) &&& 0xE0 = 0xE0 then
      let ver := (u8at b (i + 1) >>> 3) &&& 3
      let layer := (u8at b (i + 1) >>> 1) &&& 3
      let srIdx := (u8at b (i + 2) >>> 2) &&& 3
      if 0 < layer ∧ srIdx < 3 ∧ ver ≠ 1 then
        match mp3SampleRateTable ver srIdx with
        | some r => some r
        | none => mp3ScanFrom b (i + 1) stop
      else mp3ScanFrom b (i + 1) stop
    else mp3ScanFrom b (i + 1) stop
  else none
termination_by stop - i
decreasing_by all_goals omega

/-- The OGG Vorbis identification-header scan of `getOriginalSampleRate`:
find the 7-byte marker 0x01 'vorbis' and read the 32-bit little-endian
rate 12 bytes past the marker start. -/
def oggScanFrom (b : List Nat) (i stop : Nat) : Option Nat :=
  if h : i < stop then
    if u8at b i = 0x01 ∧ u8at b (i + 1) = 0x76 ∧ u8at b (i + 2) = 0x6F
        ∧ u8at b (i + 3) = 0x72 ∧ u8at b (i + 4) = 0x62 ∧ u8at b (i + 5) = 0x69
        ∧ u8at b (i + 6) = 0x73 then
      some (readUint32LE b (i + 12))
    else oggScanFrom b (i + 1) stop
  else none
termination_by stop - i
decreasing_by omega

/-- Offset past an optional ID3v2 tag, its size a 4-byte synchsafe
integer. -/
def mp3Offset (b : List Nat) : Nat :=
  if 10 < b.length ∧ u8at b 0 = 0x49 ∧ u8at b 1 = 0x44 ∧ u8at b 2 = 0x33 then
    10 + (((u8at b 6 &&& 0x7F) <<< 21) ||| ((u8at b 7 &&& 0x7F) <<< 14)
      ||| ((u8at b 8 &&& 0x7F) <<< 7) ||| (u8at b 9 &&& 0x7F))
  else 0

/-- The MP3 and OGG branches, tried after WAV and FLAC fail to match. -/
def sniffAfterFlac (b : List Nat) : Option Nat :=
  let mp3Off := mp3Offset b
  let mp3End := min (b.length - 4) (mp3Off + 4096)
  match mp3ScanFrom b mp3Off mp3End with
  | some r => some r
  | none => oggScanFrom b 0 (min (b.length - 16) 8192)

/-- The FLAC branch: on fLaC magic return the 20-bit STREAMINFO rate
packed at bytes 18–20; otherwise continue with the MP3/OGG branches. -/
def sniffAfterWav (b : List Nat) : Option Nat :=
  if 21 < b.length ∧ u8at b 0 = 0x66 ∧ u8at b 1 = 0x4C ∧ u8at b 2 = 0x61
      ∧ u8at b 3 = 0x43 then
    some ((u8at b 18 <<< 12) ||| (u8at b 19 <<< 4) ||| (u8at b 20 >>> 4))
  else sniffAfterFlac b

/-- `getOriginalSampleRate` from useAudioFile.ts, over the raw file bytes.
`none` models the final fall-through to the external platform decoder
(out of scope): every header-sniffing branch has then failed to match. -/
def getOriginalSampleRate (b : List Nat) : Option Nat :=
  if 44 < b.length
      ∧ u8at b 0 = 0x52 ∧ u8at b 1 = 0x49 ∧ u8at b 2 = 0x46 ∧ u8at b 3 = 0x46
      ∧ u8at b 8 = 0x57 ∧ u8at b 9 = 0x41 ∧ u8at b 10 = 0x56 ∧ u8at b 11 = 0x45 then
    match wavFindFmt b 12 with
    | some r => some r
    | none => sniffAfterWav b
  else sniffAfterWav b

/- ------------------------------------------------------------ -/
/- Well-formed WAV files, generatively                          -/
/- ------------------------------------------------------------ -/

/-- Little-endian 16-bit serialization. -/
def leBytes2 (n : Nat) : List Nat := [n % 256, n / 256 % 256]

/-- Little-endian 32-bit serialization. -/
def leBytes4 (n : Nat) : List Nat :=
  [n % 256, n / 256 % 256, n / 65536 % 256, n / 16777216 % 256]

/-- A RIFF chunk: 4-byte id, little-endian 32-bit size, body, and one pad
byte when the size is odd (RIFF chunks are word-aligned). -/
def chunkBytes (id : List Nat) (body : List Nat) : List Nat :=
  id ++ leBytes4 body.length ++ body
    ++ (if body.length % 2 ≠ 0 then [0] else [])

/-- The `fmt ` chunk id. -/
def fmtChunkId : List Nat := [0x66, 0x6D, 0x74, 0x20]

/-- A standard 16-byte `fmt ` chunk declaring the given sample rate at
offset 12 of the chunk. -/
def fmtChunkBytes (audioFormat channels rate byteRate blockAlign bitsPerSample : Nat) :
    List Nat :=
  fmtChunkId ++ leBytes4 16 ++ leBytes2 audioFormat ++ leBytes2 channels
    ++ leBytes4 rate ++ leBytes4 byteRate ++ leBytes2 blockAlign
    ++ leBytes2 bitsPerSample

/-- A well-formed WAV byte sequence: RIFF/WAVE magic, any chunks before
the `fmt ` chunk, the `fmt ` chunk declaring the sample rate, and any
suffix (typically the data chunk). -/
def wavBytes (riffSize : Nat) (pre : List (List Nat × List Nat))
    (audioFormat channels rate byteRate blockAlign bitsPerSample : Nat)
    (suffix : List Nat) : List Nat :=
  [0x52, 0x49, 0x46, 0x46] ++ leBytes4 riffSize ++ [0x57, 0x41, 0x56, 0x45]
    ++ (pre.map (fun c => chunkBytes c.1 c.2)).flatten
    ++ fmtChunkBytes audioFormat channels rate byteRate blockAlign bitsPerSample
    ++ suffix

/- ============================================================ -/
/- BatchCoordinator (useBatchAnalysis.ts)                       -/
/- ============================================================ -/

/-- A thrown JavaScript value: an Error object carrying a message, or a
non-Error value (for which the catch substitutes a fixed message). -/
inductive JsThrown where
  | errObj (message : String)
  | nonError
deriving DecidableEq

/-- `e instanceof Error ? e.message : '解析に失敗しました'`. -/
def jsThrownMessage : JsThrown → String
  | .errObj m => m
  | .nonError => "解析に失敗しました"

/-- Whether the message the catch block would record for this outcome is
nonempty (always true for `ok` and for non-Error throws). -/
def exceptMsgOk {α : Type} : Except JsThrown α → Bool
  | .error (.errObj m) => !(m == "")
  | .error .nonError => true
  | .ok _ => true

/-- FileInfo as built by the batch loop after decode. -/
structure FileInfo where
  name : String
  duration : ℚ
  sampleRate : ℚ
  channels : Nat
  format : String
deriving DecidableEq

/-- The accumulated partial fragments observed by the batch's private
`AudioAnalyzer` instance during one item's analyze call. -/
structure PartialAccum where
  loudness : Option LoudnessData
  stereo : Option StereoData
  quality : Option QualityData

/-- The full AnalysisResult assembled for a batch item. -/
structure AnalysisResult where
  fileInfo : FileInfo
  loudness : Option LoudnessData
  stereo : Option StereoData
  quality : Option QualityData

/-- Batch item status machine. -/
inductive BatchStatus where
  | pending
  | decoding
  | analyzing
  | done
  | error
deriving DecidableEq, Inhabited

/-- A batch item as tracked by useBatchAnalysis. -/
structure BatchItem where
  id : String
  fileInfo : Option FileInfo
  result : Option AnalysisResult
  status : BatchStatus
  errorMsg : Option String

/-- Externally-determined behaviour of one item: the outcome of its
decode and of its analyze call. -/
structure BatchItemBeh where
  decode : Except JsThrown FileInfo
  analyze : Except JsThrown PartialAccum

/-- One iteration of the `startAnalysis` loop: skip non-pending items;
otherwise decode then analyze, recording `done` with the assembled result,
or `error` with the thrown message, on this item only. -/
def processBatchItem (it : BatchItem) (beh : BatchItemBeh) : BatchItem :=
  if it.status ≠ BatchStatus.pending then it
  else
    match beh.decode with
    | .error e => { it with status := .error, errorMsg := some (jsThrownMessage e) }
    | .ok fi =>
      match beh.analyze with
      | .error e =>
        { it with fileInfo := some fi, status := .error,
                  errorMsg := some (jsThrownMessage e) }
      | .ok pa =>
        let res : AnalysisResult :=
          { fileInfo := fi, loudness := pa.loudness,
            stereo := pa.stereo, quality := pa.quality }
        { it with fileInfo := some fi, result := some res, status := .done }

/-- `startAnalysis` from useBatchAnalysis.ts with no cancellation request:
when the analyzer's own init fails the loop never runs and all items keep
their statuses; otherwise the items are processed sequentially in original
queue order, each item's outcome depending only on its own behaviour
(per-item failures are caught inside the loop body). -/
def startAnalysis (initOk : Bool) (items : List (BatchItem × BatchItemBeh)) :
    List BatchItem :=
  if initOk then items.map (fun p => processBatchItem p.1 p.2)
  else items.map (fun p => p.1)

/-- Concrete three-item batch in which item 2's decode throws. -/
def witnessBatchItems : List (BatchItem × BatchItemBeh) :=
  [({ id := "a", fileInfo := none, result := none, status := .pending, errorMsg := none },
    { decode := .ok { name := "a.wav", duration := 1, sampleRate := 44100,
                      channels := 2, format := "WAV" },
      analyze := .ok { loudness := none, stereo := none, quality := none } }),
   ({ id := "b", fileInfo := none, result := none, status := .pending, errorMsg := none },
    { decode := .error (.errObj "decode failed"),
      analyze := .ok { loudness := none, stereo := none, quality := none } }),
   ({ id := "c", fileInfo := none, result := none, status := .pending, errorMsg := none },
    { decode := .ok { name := "c.wav", duration := 2, sampleRate := 48000,
                      channels := 2, format := "WAV" },
      analyze := .ok { loudness := none, stereo := none, quality := none } })]

/- ============================================================ -/
/- Buffer ownership across the worker boundary (analyzer.ts)    -/
/- ============================================================ -/

/-- Identifier-addressed heap of Float32Array buffers; `none` models a
detached (transferred-away) buffer. -/
def BufHeap : Type := Nat → Option (List ℚ)

/-- A Float32Array reference: the identity of its underlying buffer. -/
structure ArrRef where
  id : Nat
deriving DecidableEq

/-- Allocator state: the heap plus the next fresh buffer id; a state is
well formed when every live reference's id is below `nextId`. -/
structure MemState where
  heap : BufHeap
  nextId : Nat

/-- Read a buffer's contents (empty if detached). -/
def readArr (s : MemState) (a : ArrRef) : List ℚ := (s.heap a.id).getD []

/-- `new Float32Array(src)`: allocate a fresh buffer holding a copy of the
source's current contents. -/
def newFloat32From (s : MemState) (src : ArrRef) : ArrRef × MemState :=
  (⟨s.nextId⟩,
   { heap := fun i => if i = s.nextId then some (readArr s src) else s.heap i,
     nextId := s.nextId + 1 })

/-- `postMessage(_, transferList)`: every buffer in the transfer list is
detached on the sending side. -/
def transferBuffers (s : MemState) (transferList : List Nat) : MemState :=
  { s with heap := fun i => if i ∈ transferList then none else s.heap i }

/-- The send side of `AudioAnalyzer.analyze`: copy `leftChannel ?? audioData`
and `rightChannel ?? audioData` into fresh buffers and transfer only the
copies.  Returns the payload contents the worker receives, the transfer
list, and the caller's state after the send. -/
def analyzeSend (s : MemState) (audioData : ArrRef)
    (leftChannel rightChannel : Option ArrRef) :
    (List ℚ × List ℚ) × List Nat × MemState :=
  let lsrc := leftChannel.getD audioData
  let rsrc := rightChannel.getD audioData
  let l := newFloat32From s lsrc
  let r := newFloat32From l.2 rsrc
  ((readArr r.2 l.1, readArr r.2 r.1), [l.1.id, r.1.id],
    transferBuffers r.2 [l.1.id, r.1.id])

/-- The send side of `AudioAnalyzer.analyzeBpmKey`: copy `audioData` and
transfer only the copy. -/
def bpmKeySend (s : MemState) (audioData : ArrRef) :
    List ℚ × List Nat × MemState :=
  let d := newFloat32From s audioData
  (readArr d.2 d.1, [d.1.id], transferBuffers d.2 [d.1.id])

/- ============================================================ -/
/- Lemmas about the DSP components                              -/
/- ============================================================ -/

theorem stereoSumsAux_eq (ls : List ℚ) :
    ∀ (rs : List ℚ) (acc : ℚ × ℚ),
      stereoSumsAux ls rs acc = (acc.1 + midSqSum ls rs, acc.2 + sideSqSum ls rs) := by
  induction ls with
  | nil =>
    intro rs acc
    cases rs <;> simp [stereoSumsAux, midSqSum, sideSqSum]
  | cons a ts ih =>
    intro rs acc
    cases rs with
    | nil => simp [stereoSumsAux, midSqSum, sideSqSum]
    | cons b us =>
      show stereoSumsAux ts us _ = _
      rw [ih us]
      simp only [midSqSum, sideSqSum, Prod.mk.injEq]
      constructor <;> ring

theorem stereoSums_eq (l r : List ℚ) :
    stereoSums l r = (midSqSum l r, sideSqSum l r) := by
  rw [stereoSums, stereoSumsAux_eq]
  simp

theorem midSqSum_nonneg (ls : List ℚ) : ∀ rs : List ℚ, 0 ≤ midSqSum ls rs := by
  induction ls with
  | nil => intro rs; cases rs <;> simp [midSqSum]
  | cons a ts ih =>
    intro rs
    cases rs with
    | nil => simp [midSqSum]
    | cons b us => exact add_nonneg (mul_self_nonneg _) (ih us)

theorem sideSqSum_nonneg (ls : List ℚ) : ∀ rs : List ℚ, 0 ≤ sideSqSum ls rs := by
  induction ls with
  | nil => intro rs; cases rs <;> simp [sideSqSum]
  | cons a ts ih =>
    intro rs
    cases rs with
    | nil => simp [sideSqSum]
    | cons b us => exact add_nonneg (mul_self_nonneg _) (ih us)

theorem sideSqSum_pos (ls : List ℚ) :
    ∀ (rs : List ℚ) (i : Nat), i < min ls.length rs.length →
      ls.getD i 0 ≠ rs.getD i 0 → 0 < sideSqSum ls rs := by
  induction ls with
  | nil => intro rs i hi _; simp at hi
  | cons a ts ih =>
    intro rs i hi hne
    cases rs with
    | nil => simp at hi
    | cons b us =>
      cases i with
      | zero =>
        have hab : a - b ≠ 0 := by
          simpa [sub_eq_zero] using hne
        have hterm : 0 < ((a - b) * (1/2)) * ((a - b) * (1/2)) := by
          rw [mul_self_pos]
          intro hc
          rcases mul_eq_zero.mp hc with hc | hc
          · exact hab hc
          · norm_num at hc
        exact add_pos_of_pos_of_nonneg hterm (sideSqSum_nonneg ts us)
      | succ j =>
        have hj : j < min ts.length us.length := by
          simp only [List.length_cons, Nat.lt_min] at hi ⊢
          omega
        have hne' : ts.getD j 0 ≠ us.getD j 0 := by simpa using hne
        exact add_pos_of_nonneg_of_pos (mul_self_nonneg _) (ih us j hj hne')

theorem midSqSum_pos (ls : List ℚ) :
    ∀ (rs : List ℚ) (j : Nat), j < min ls.length rs.length →
      ls.getD j 0 + rs.getD j 0 ≠ 0 → 0 < midSqSum ls rs := by
  induction ls with
  | nil => intro rs j hj _; simp at hj
  | cons a ts ih =>
    intro rs j hj hne
    cases rs with
    | nil => simp at hj
    | cons b us =>
      cases j with
      | zero =>
        have hab : a + b ≠ 0 := by simpa using hne
        have hterm : 0 < ((a + b) * (1/2)) * ((a + b) * (1/2)) := by
          rw [mul_self_pos]
          intro hc
          rcases mul_eq_zero.mp hc with hc | hc
          · exact hab hc
          · norm_num at hc
        exact add_pos_of_pos_of_nonneg hterm (midSqSum_nonneg ts us)
      | succ i =>
        have hi : i < min ts.length us.length := by
          simp only [List.length_cons, Nat.lt_min] at hj ⊢
          omega
        have hne' : ts.getD i 0 + us.getD i 0 ≠ 0 := by simpa using hne
        exact add_pos_of_nonneg_of_pos (mul_self_nonneg _) (ih us i hi hne')

theorem sideSqSum_eq_zero_of_eq (ls : List ℚ) :
    ∀ rs : List ℚ, (∀ i, i < min ls.length rs.length → ls.getD i 0 = rs.getD i 0) →
      sideSqSum ls rs = 0 := by
  induction ls with
  | nil => intro rs _; cases rs <;> simp [sideSqSum]
  | cons a ts ih =>
    intro rs h
    cases rs with
    | nil => simp [sideSqSum]
    | cons b us =>
      have hab : a = b := by simpa using h 0 (by simp [Nat.lt_min])
      have htail : ∀ i, i < min ts.length us.length → ts.getD i 0 = us.getD i 0 := by
        intro i hi
        have := h (i + 1) (by simp only [List.length_cons, Nat.lt_min] at hi ⊢; omega)
        simpa using this
      simp [sideSqSum, hab, ih us htail]

theorem zipWith_mid_sq_sum (ls : List ℚ) :
    ∀ rs : List ℚ,
      ((List.zipWith (fun l r => (l + r) / 2) ls rs).map (fun x => x * x)).sum =
        midSqSum ls rs := by
  induction ls with
  | nil => intro rs; cases rs <;> simp [midSqSum]
  | cons a ts ih =>
    intro rs
    cases rs with
    | nil => simp [midSqSum]
    | cons b us =>
      simp only [List.zipWith_cons_cons, List.map_cons, List.sum_cons, midSqSum, ih us]
      ring_nf

theorem zipWith_side_sq_sum (ls : List ℚ) :
    ∀ rs : List ℚ,
      ((List.zipWith (fun l r => (l - r) / 2) ls rs).map (fun x => x * x)).sum =
        sideSqSum ls rs := by
  induction ls with
  | nil => intro rs; cases rs <;> simp [sideSqSum]
  | cons a ts ih =>
    intro rs
    cases rs with
    | nil => simp [sideSqSum]
    | cons b us =>
      simp only [List.zipWith_cons_cons, List.map_cons, List.sum_cons, sideSqSum, ih us]
      ring_nf

theorem foldl_absmax_all_zero (l : List ℚ) (acc : ℚ)
    (h : ∀ x ∈ l, x = 0) (hacc : 0 ≤ acc) :
    l.foldl (fun m x => if |x| > m then |x| else m) acc = acc := by
  induction l generalizing acc with
  | nil => rfl
  | cons a t ih =>
    have ha : a = 0 := h a (by simp)
    subst ha
    simp only [List.foldl_cons]
    have hno : ¬(|(0 : ℚ)| > acc) := by simpa using hacc
    rw [if_neg hno]
    exact ih acc (fun x hx => h x (by simp [hx])) hacc

theorem maxSampleOf_all_zero (left right : List ℚ)
    (hl : ∀ x ∈ left, x = 0) (hr : ∀ x ∈ right, x = 0) :
    maxSampleOf left right = 0 := by
  refine foldl_absmax_all_zero _ _ ?_ le_rfl
  intro x hx
  rcases List.mem_append.mp hx with h | h
  · exact hl x h
  · exact hr x h

theorem stereoSumsAux_all_zero (ls : List ℚ) :
    ∀ (rs : List ℚ) (acc : ℚ × ℚ), (∀ x ∈ ls, x = 0) → (∀ x ∈ rs, x = 0) →
    stereoSumsAux ls rs acc = acc := by
  induction ls with
  | nil => intro rs acc _ _; cases rs <;> rfl
  | cons a ts ih =>
    intro rs acc hl hr
    cases rs with
    | nil => rfl
    | cons b us =>
      have ha : a = 0 := hl a (by simp)
      have hb : b = 0 := hr b (by simp)
      subst ha; subst hb
      show stereoSumsAux ts us _ = acc
      rw [ih us _ (fun x hx => hl x (by simp [hx])) (fun x hx => hr x (by simp [hx]))]
      norm_num

theorem stereoWidth_all_zero (left right : List ℚ)
    (hl : ∀ x ∈ left, x = 0) (hr : ∀ x ∈ right, x = 0) :
    stereoWidth left right = 0 := by
  have hs : stereoSums left right = (0, 0) :=
    stereoSumsAux_all_zero left right (0, 0) hl hr
  simp [stereoWidth, hs]

theorem takeWhile_silence_all_zero (l : List ℚ) (h : ∀ x ∈ l, x = 0) :
    l.takeWhile (fun x => !(|x| > silenceThreshold)) = l := by
  induction l with
  | nil => rfl
  | cons a t ih =>
    have ha : a = 0 := h a (by simp)
    subst ha
    rw [List.takeWhile_cons]
    have hpred : (!((|(0 : ℚ)| > silenceThreshold) : Bool)) = true := by
      norm_num [silenceThreshold]
    rw [hpred]
    simp only [if_true]
    rw [ih (fun x hx => h x (by simp [hx]))]

theorem getLastD_all_zero (l : List ℚ) :
    ∀ d : ℚ, (∀ x ∈ l, x = 0) → d = 0 → l.getLastD d = 0 := by
  induction l with
  | nil => intro d _ hd; simpa using hd
  | cons a t ih =>
    intro d h _
    rw [List.getLastD_cons]
    exact ih a (fun x hx => h x (by simp [hx])) (h a (by simp))

theorem headD_all_zero (l : List ℚ) (d : ℚ)
    (h : ∀ x ∈ l, x = 0) (hd : d = 0) : l.headD d = 0 := by
  cases l with
  | nil => simpa using hd
  | cons a t => exact h a (by simp)

theorem runQualityCheck_all_zero (l : List ℚ) (rate : ℚ) (h : ∀ x ∈ l, x = 0) :
    runQualityCheck l rate =
      { startAmplitude := 0, endAmplitude := 0, startIsZero := true,
        endIsZero := true, headSilence := (l.length : ℚ) / rate,
        tailSilence := (l.length : ℚ) / rate } := by
  have hrev : ∀ x ∈ l.reverse, x = 0 := fun x hx => h x (List.mem_reverse.mp hx)
  have hhead : l.headD 0 = 0 := headD_all_zero l 0 h rfl
  have hlast : l.getLastD 0 = 0 := getLastD_all_zero l 0 h rfl
  have htw : l.takeWhile (fun x => !(|x| > silenceThreshold)) = l :=
    takeWhile_silence_all_zero l h
  have htwr : l.reverse.takeWhile (fun x => !(|x| > silenceThreshold)) = l.reverse :=
    takeWhile_silence_all_zero l.reverse hrev
  simp only [runQualityCheck]
  rw [htw, htwr, hhead, hlast]
  norm_num [silenceThreshold]

/- ============================================================ -/
/- C1                                                           -/
/- ============================================================ -/

/-- C1: for all-zero left/right channels and any positive sample rate, the
analysis pass yields a true peak of −∞, a stereo width of 0, head and tail
silence durations equal to the full signal length divided by the sample
rate, and both effective-zero flags true. -/
theorem silent_input_analysis (left right : List ℚ) (rate : ℚ)
    (hl : ∀ x ∈ left, x = 0) (hr : ∀ x ∈ right, x = 0) (_hrate : 0 < rate) :
    computeTruePeak left right = TruePeakVal.negInf
    ∧ stereoWidth left right = 0
    ∧ (runQualityCheck left rate).headSilence = (left.length : ℚ) / rate
    ∧ (runQualityCheck left rate).tailSilence = (left.length : ℚ) / rate
    ∧ (runQualityCheck left rate).startIsZero = true
    ∧ (runQualityCheck left rate).endIsZero = true := by
  have hq := runQualityCheck_all_zero left rate hl
  refine ⟨?_, stereoWidth_all_zero left right hl hr, ?_, ?_, ?_, ?_⟩
  · simp [computeTruePeak, maxSampleOf_all_zero left right hl hr]
  · rw [hq]
  · rw [hq]
  · rw [hq]
  · rw [hq]

theorem stereoWidth_eq_spec (l r : List ℚ) : stereoWidth l r = stereoWidthSpec l r := by
  have hlm : (List.zipWith (fun a b => (a + b) / 2) l r).length = min l.length r.length := by
    simp
  have hls : (List.zipWith (fun a b => (a - b) / 2) l r).length = min l.length r.length := by
    simp
  simp only [stereoWidth, stereoWidthSpec, specRMS, stereoSums_eq]
  rw [zipWith_mid_sq_sum, zipWith_side_sq_sum, hlm, hls]
  rcases lt_or_eq_of_le
      (Real.sqrt_nonneg (((midSqSum l r : ℚ) : ℝ) / ((min l.length r.length : ℕ) : ℝ)))
    with hpos | heq
  · rw [if_pos hpos, if_neg (ne_of_gt hpos)]
  · rw [if_neg (by rw [← heq]; exact lt_irrefl 0), if_pos heq.symm]

theorem stereoWidth_zero_of_eq (l r : List ℚ)
    (h : ∀ i, i < min l.length r.length → l.getD i 0 = r.getD i 0) :
    stereoWidth l r = 0 := by
  have hside : sideSqSum l r = 0 := sideSqSum_eq_zero_of_eq l r h
  simp [stereoWidth, stereoSums_eq, hside]

theorem stereoWidth_pos (l r : List ℚ)
    (hne : ∃ i, i < min l.length r.length ∧ l.getD i 0 ≠ r.getD i 0)
    (hmid : ∃ j, j < min l.length r.length ∧ l.getD j 0 + r.getD j 0 ≠ 0) :
    0 < stereoWidth l r := by
  obtain ⟨i, hi, hnei⟩ := hne
  obtain ⟨j, hj, hnej⟩ := hmid
  have hm : 0 < midSqSum l r := midSqSum_pos l r j hj hnej
  have hs : 0 < sideSqSum l r := sideSqSum_pos l r i hi hnei
  have hn : 0 < min l.length r.length := Nat.lt_of_le_of_lt (Nat.zero_le i) hi
  have hnR : (0 : ℝ) < ((min l.length r.length : ℕ) : ℝ) := by exact_mod_cast hn
  have hmR : (0 : ℝ) < ((midSqSum l r : ℚ) : ℝ) := by exact_mod_cast hm
  have hsR : (0 : ℝ) < ((sideSqSum l r : ℚ) : ℝ) := by exact_mod_cast hs
  have hmidRMS : 0 < Real.sqrt (((midSqSum l r : ℚ) : ℝ) / ((min l.length r.length : ℕ) : ℝ)) :=
    Real.sqrt_pos.mpr (div_pos hmR hnR)
  have hsideRMS : 0 < Real.sqrt (((sideSqSum l r : ℚ) : ℝ) / ((min l.length r.length : ℕ) : ℝ)) :=
    Real.sqrt_pos.mpr (div_pos hsR hnR)
  simp only [stereoWidth, stereoSums_eq]
  rw [if_pos hmidRMS]
  exact div_pos hsideRMS hmidRMS

/- ============================================================ -/
/- C6                                                           -/
/- ============================================================ -/

/-- C6 counterexample: the claim "width is > 0 whenever L[i] ≠ R[i] for
some i in the common length" fails at L = [1], R = [−1]: the channels
differ at index 0 of the (positive) common length, yet the code computes
width 0 because the mid channel is identically zero. -/
theorem stereoWidth_pos_claim_counterexample :
    [(1 : ℚ)].getD 0 0 ≠ [(-1 : ℚ)].getD 0 0
    ∧ 0 < min [(1 : ℚ)].length [(-1 : ℚ)].length
    ∧ stereoWidth [(1 : ℚ)] [(-1 : ℚ)] = 0 := by
  refine ⟨by norm_num, by norm_num, ?_⟩
  have hs : sideSqSum [(1 : ℚ)] [(-1 : ℚ)] = 1 := by norm_num [sideSqSum]
  have hm : midSqSum [(1 : ℚ)] [(-1 : ℚ)] = 0 := by norm_num [midSqSum]
  simp [stereoWidth, stereoSums_eq, hm, hs]

/-- C6 (amended): stereo width equals the spec's RMS(side)/RMS(mid) over
the common length (0 when RMS(mid) is 0); width is 0 whenever L and R
agree on the common length; and width is > 0 whenever L and R differ at
some index of the common length, provided the mid channel L+R is nonzero
at some index of the common length (equivalently RMS(mid) ≠ 0) — without
that proviso the code returns 0 even for differing channels. -/
theorem stereoWidth_characterization (l r : List ℚ) :
    stereoWidth l r = stereoWidthSpec l r
    ∧ ((∀ i, i < min l.length r.length → l.getD i 0 = r.getD i 0) →
        stereoWidth l r = 0)
    ∧ ((∃ i, i < min l.length r.length ∧ l.getD i 0 ≠ r.getD i 0) →
        (∃ j, j < min l.length r.length ∧ l.getD j 0 + r.getD j 0 ≠ 0) →
        0 < stereoWidth l r) :=
  ⟨stereoWidth_eq_spec l r, stereoWidth_zero_of_eq l r, stereoWidth_pos l r⟩

/-- C6 witness: the amended positivity clause applied to the concrete
channels L = [1, 1], R = [1, −1]. -/
theorem stereoWidth_characterization_witness :
    0 < stereoWidth [1, 1] [1, -1] :=
  (stereoWidth_characterization [1, 1] [1, -1]).2.2
    ⟨1, by decide, by decide⟩ ⟨0, by decide, by norm_num⟩

/- ============================================================ -/
/- C7                                                           -/
/- ============================================================ -/

theorem foldl_absmax_ge (l : List ℚ) :
    ∀ acc : ℚ, acc ≤ l.foldl (fun m x => if |x| > m then |x| else m) acc := by
  induction l with
  | nil => intro acc; exact le_rfl
  | cons a t ih =>
    intro acc
    refine le_trans ?_ (ih _)
    show acc ≤ if |a| > acc then |a| else acc
    by_cases h : |a| > acc
    · rw [if_pos h]; exact h.le
    · rw [if_neg h]

theorem maxSampleOf_nonneg (l r : List ℚ) : 0 ≤ maxSampleOf l r :=
  foldl_absmax_ge _ 0

theorem le_oversampleStep (samples : List ℚ) (θ : ℚ) (i : Nat) (m : ℚ) :
    m ≤ oversampleStep samples θ i m := by
  unfold oversampleStep
  split
  · exact le_rfl
  · exact foldl_absmax_ge _ m

theorem le_foldl_oversample (samples : List ℚ) (θ : ℚ) (idxs : List Nat) :
    ∀ m : ℚ, m ≤ idxs.foldl (fun acc i => oversampleStep samples θ i acc) m := by
  induction idxs with
  | nil => intro m; exact le_rfl
  | cons i t ih =>
    intro m
    exact le_trans (le_oversampleStep samples θ i m) (by simpa using ih _)

theorem le_channelOversampleMax (samples : List ℚ) (θ : ℚ) (m : ℚ) :
    m ≤ channelOversampleMax samples θ m :=
  le_foldl_oversample samples θ _ m

theorem maxSampleOf_le_computeMaxAbs (l r : List ℚ) :
    maxSampleOf l r ≤ computeMaxAbs l r := by
  unfold computeMaxAbs
  exact le_trans (le_channelOversampleMax l _ _) (le_channelOversampleMax r _ _)

/-- C7: whenever the coarse sample-domain maximum m is nonzero, the
true-peak estimate is a dB value that is at least 20·log10(m): the
oversampled estimate never falls below the coarse peak expressed in dB. -/
theorem truePeak_ge_coarse_dB (l r : List ℚ) (h : maxSampleOf l r ≠ 0) :
    ∃ x : ℝ, computeTruePeak l r = TruePeakVal.dB x
      ∧ 20 * Real.logb 10 ((maxSampleOf l r : ℚ) : ℝ) ≤ x := by
  have hpos : (0 : ℚ) < maxSampleOf l r :=
    lt_of_le_of_ne (maxSampleOf_nonneg l r) (Ne.symm h)
  refine ⟨20 * Real.logb 10 ((computeMaxAbs l r : ℚ) : ℝ), by simp [computeTruePeak, h], ?_⟩
  have hle : ((maxSampleOf l r : ℚ) : ℝ) ≤ ((computeMaxAbs l r : ℚ) : ℝ) := by
    exact_mod_cast maxSampleOf_le_computeMaxAbs l r
  have hposR : (0 : ℝ) < ((maxSampleOf l r : ℚ) : ℝ) := by exact_mod_cast hpos
  have hlog := Real.logb_le_logb_of_le (by norm_num : (1 : ℝ) < 10) hposR hle
  linarith

/-- C7 witness: the theorem applied to a concrete signal with nonzero
coarse peak. -/
theorem truePeak_ge_coarse_dB_witness :
    maxSampleOf [0, 1, 0, 0] [0, 0, 0, 0] ≠ 0
    ∧ ∃ x : ℝ, computeTruePeak [0, 1, 0, 0] [0, 0, 0, 0] = TruePeakVal.dB x
      ∧ 20 * Real.logb 10 ((maxSampleOf [0, 1, 0, 0] [0, 0, 0, 0] : ℚ) : ℝ) ≤ x :=
  ⟨by decide, truePeak_ge_coarse_dB [0, 1, 0, 0] [0, 0, 0, 0] (by decide)⟩

/-- C1 witness: the theorem applied to concrete all-zero stereo input. -/
theorem silent_input_analysis_witness :
    computeTruePeak [0, 0, 0] [0, 0, 0] = TruePeakVal.negInf
    ∧ stereoWidth [0, 0, 0] [0, 0, 0] = 0
    ∧ (runQualityCheck [0, 0, 0] 2).headSilence = ((3 : ℕ) : ℚ) / 2
    ∧ (runQualityCheck [0, 0, 0] 2).tailSilence = ((3 : ℕ) : ℚ) / 2
    ∧ (runQualityCheck [0, 0, 0] 2).startIsZero = true
    ∧ (runQualityCheck [0, 0, 0] 2).endIsZero = true := by
  have h := silent_input_analysis [0, 0, 0] [0, 0, 0] 2
    (by decide) (by decide) (by decide)
  simpa using h

/- ============================================================ -/
/- Lemmas about the message protocol                            -/
/- ============================================================ -/

theorem observedMsgs_append (isTerm : WorkerMsg → Bool) (xs ys : List WorkerMsg)
    (h : ∀ x ∈ xs, isTerm x = false) :
    observedMsgs isTerm (xs ++ ys) = xs ++ observedMsgs isTerm ys := by
  induction xs with
  | nil => simp
  | cons a t ih =>
    have ha : isTerm a = false := h a (by simp)
    simp [observedMsgs, ha, ih (fun x hx => h x (by simp [hx]))]

theorem keyFallbackProgress_not_terminal (len : Nat) (beh : KeyFallbackBeh) :
    ∀ m ∈ keyFallbackProgress len beh, bpmKeyTerminal m = false := by
  intro m hm
  simp only [keyFallbackProgress, List.mem_map] at hm
  obtain ⟨f, _, rfl⟩ := hm
  rfl

theorem handleBpmKey_decomp (t1 : Except Unit RhythmOut) (t2 : Except Unit PercivalOut)
    (k1 : Except Unit KeyOut) (beh : KeyFallbackBeh)
    (audioData : List ℚ) (sampleRate : ℚ) :
    ∃ xs : List WorkerMsg,
      handleBpmKey t1 t2 k1 beh audioData sampleRate
        = xs ++ (WorkerMsg.bpmKeyComplete
              { bpm := (bpmCascadeResult t1 t2).1
                bpmConfidence := (bpmCascadeResult t1 t2).2
                key := (keyCascadeResult k1 audioData.length beh).1
                scale := (keyCascadeResult k1 audioData.length beh).2.1
                keyStrength := (keyCascadeResult k1 audioData.length beh).2.2 }
            :: [WorkerMsg.progress "done" 100 "解析完了", WorkerMsg.complete])
      ∧ ∀ m ∈ xs, bpmKeyTerminal m = false := by
  refine ⟨[.progress "phase1" 10 "BPM解析中...", .progress "phase1" 50 "Key解析中..."]
      ++ (match k1 with
          | .ok _ => []
          | .error _ => keyFallbackProgress audioData.length beh)
      ++ [.progress "phase1" 90 "結果まとめ中..."], ?_, ?_⟩
  · simp [handleBpmKey, runBpmKeyMsgs]
  · intro m hm
    rcases List.mem_append.mp hm with h12 | h3
    · rcases List.mem_append.mp h12 with h1 | h2
      · simp only [List.mem_cons, List.not_mem_nil, or_false] at h1
        rcases h1 with rfl | rfl <;> rfl
      · cases k1 with
        | ok k => simp at h2
        | error e => exact keyFallbackProgress_not_terminal audioData.length beh m h2
    · simp only [List.mem_cons, List.not_mem_nil, or_false] at h3
      subst h3
      rfl

/- ============================================================ -/
/- C2                                                           -/
/- ============================================================ -/

theorem clientOutcomeBpmKey_append (xs ys : List WorkerMsg)
    (h : ∀ x ∈ xs, bpmKeyTerminal x = false) :
    clientOutcomeBpmKey (xs ++ ys) = clientOutcomeBpmKey ys := by
  induction xs with
  | nil => simp
  | cons a t ih =>
    have ha := h a (by simp)
    have ht := ih (fun x hx => h x (by simp [hx]))
    cases a with
    | bpmKeyComplete d => simp [bpmKeyTerminal] at ha
    | error m => simp [bpmKeyTerminal] at ha
    | ready v => simpa [clientOutcomeBpmKey] using ht
    | progress p q l => simpa [clientOutcomeBpmKey] using ht
    | fragment f => simpa [clientOutcomeBpmKey] using ht
    | complete => simpa [clientOutcomeBpmKey] using ht

/-- C2: when the tier-1 tempo estimator throws, the `analyzeBpmKey` call
still resolves with a bpmKeyComplete payload whose bpm is the tier-2
estimator's bpm (0 when tier 2 also throws) and whose confidence is 0;
exhausting the tiers is never surfaced as an error to the caller. -/
theorem bpm_fallback_cascade (t2 : Except Unit PercivalOut) (k1 : Except Unit KeyOut)
    (beh : KeyFallbackBeh) (audioData : List ℚ) (sampleRate : ℚ) :
    ∃ d : BpmKeyData,
      clientOutcomeBpmKey (handleBpmKey (.error ()) t2 k1 beh audioData sampleRate)
        = CallOutcome.resolved d
      ∧ d.bpmConfidence = 0
      ∧ d.bpm = (match t2 with
          | .ok p => p.bpm.getD 0
          | .error _ => 0) := by
  obtain ⟨xs, hdc, hxs⟩ := handleBpmKey_decomp (.error ()) t2 k1 beh audioData sampleRate
  refine ⟨{ bpm := (bpmCascadeResult (.error ()) t2).1
            bpmConfidence := (bpmCascadeResult (.error ()) t2).2
            key := (keyCascadeResult k1 audioData.length beh).1
            scale := (keyCascadeResult k1 audioData.length beh).2.1
            keyStrength := (keyCascadeResult k1 audioData.length beh).2.2 }, ?_, ?_, ?_⟩
  · rw [hdc, clientOutcomeBpmKey_append xs _ hxs]
    rfl
  · show (bpmCascadeResult (.error ()) t2).2 = 0
    cases t2 <;> rfl
  · show (bpmCascadeResult (.error ()) t2).1 = _
    cases t2 <;> rfl

/- ============================================================ -/
/- C4                                                           -/
/- ============================================================ -/

/-- C4: in a single `analyze` call the progress percents are non-decreasing
in emission order, never exceed 100, and the final progress message has
phase 'done' with percent exactly 100 — for every outcome of the external
loudness call and every input. -/
theorem analyze_progress_monotone (ebu : Except Unit EbuOut) (audioData : List ℚ)
    (leftChannel rightChannel : Option (List ℚ)) (sampleRate : ℚ) :
    List.Sorted (· ≤ ·)
      ((progressEntries
        (handleAnalyze ebu audioData leftChannel rightChannel sampleRate)).map Prod.snd)
    ∧ (∀ p ∈ progressEntries
          (handleAnalyze ebu audioData leftChannel rightChannel sampleRate), p.2 ≤ 100)
    ∧ (progressEntries
        (handleAnalyze ebu audioData leftChannel rightChannel sampleRate)).getLast?
        = some ("done", 100) := by
  have h : progressEntries (handleAnalyze ebu audioData leftChannel rightChannel sampleRate)
      = [("phase1", 5), ("phase1", 40), ("phase1", 70), ("done", 100)] := by
    simp [handleAnalyze, runAnalysisMsgs, progressEntries]
  refine ⟨?_, ?_, ?_⟩ <;> rw [h]
  · norm_num [List.sorted_cons]
  · intro p hp
    simp only [List.mem_cons, List.not_mem_nil, or_false] at hp
    rcases hp with rfl | rfl | rfl | rfl <;> norm_num
  · rfl

/- ============================================================ -/
/- C5                                                           -/
/- ============================================================ -/

/-- C5: for both kinds of calls, the observed messages are a prefix of the
emitted messages (hence observed in emission order); the last observed
message is the call's terminal message (`complete` for analyze,
`bpmKeyComplete` for analyzeBpmKey); and no message is observed after the
terminal one (every earlier observed message is non-terminal). -/
theorem terminal_message_is_last
    (ebu : Except Unit EbuOut) (audioData : List ℚ)
    (leftChannel rightChannel : Option (List ℚ)) (sampleRate : ℚ)
    (t1 : Except Unit RhythmOut) (t2 : Except Unit PercivalOut)
    (k1 : Except Unit KeyOut) (beh : KeyFallbackBeh)
    (audioData2 : List ℚ) (sampleRate2 : ℚ) :
    (∃ rest, handleAnalyze ebu audioData leftChannel rightChannel sampleRate
        = observedMsgs analyzeTerminal
            (handleAnalyze ebu audioData leftChannel rightChannel sampleRate) ++ rest)
    ∧ (observedMsgs analyzeTerminal
        (handleAnalyze ebu audioData leftChannel rightChannel sampleRate)).getLast?
        = some WorkerMsg.complete
    ∧ (∀ m ∈ (observedMsgs analyzeTerminal
          (handleAnalyze ebu audioData leftChannel rightChannel sampleRate)).dropLast,
        analyzeTerminal m = false)
    ∧ (∃ rest, handleBpmKey t1 t2 k1 beh audioData2 sampleRate2
        = observedMsgs bpmKeyTerminal
            (handleBpmKey t1 t2 k1 beh audioData2 sampleRate2) ++ rest)
    ∧ (∃ d, (observedMsgs bpmKeyTerminal
          (handleBpmKey t1 t2 k1 beh audioData2 sampleRate2)).getLast?
        = some (WorkerMsg.bpmKeyComplete d))
    ∧ (∀ m ∈ (observedMsgs bpmKeyTerminal
          (handleBpmKey t1 t2 k1 beh audioData2 sampleRate2)).dropLast,
        bpmKeyTerminal m = false) := by
  obtain ⟨xs, hdc, hxs⟩ := handleBpmKey_decomp t1 t2 k1 beh audioData2 sampleRate2
  have hobsA : observedMsgs analyzeTerminal
      (handleAnalyze ebu audioData leftChannel rightChannel sampleRate)
      = handleAnalyze ebu audioData leftChannel rightChannel sampleRate := by
    simp [handleAnalyze, runAnalysisMsgs, observedMsgs, analyzeTerminal]
  have hobsB : observedMsgs bpmKeyTerminal
      (handleBpmKey t1 t2 k1 beh audioData2 sampleRate2)
      = xs ++ [WorkerMsg.bpmKeyComplete
          { bpm := (bpmCascadeResult t1 t2).1
            bpmConfidence := (bpmCascadeResult t1 t2).2
            key := (keyCascadeResult k1 audioData2.length beh).1
            scale := (keyCascadeResult k1 audioData2.length beh).2.1
            keyStrength := (keyCascadeResult k1 audioData2.length beh).2.2 }] := by
    rw [hdc, observedMsgs_append _ _ _ hxs]
    rfl
  refine ⟨⟨[], by rw [hobsA]; simp⟩, ?_, ?_, ?_, ?_, ?_⟩
  · rw [hobsA]
    simp [handleAnalyze, runAnalysisMsgs]
  · rw [hobsA]
    intro m hm
    simp only [handleAnalyze, runAnalysisMsgs] at hm
    simp at hm
    rcases hm with rfl | rfl | rfl | rfl | rfl | rfl <;> rfl
  · refine ⟨[WorkerMsg.progress "done" 100 "解析完了", WorkerMsg.complete], ?_⟩
    rw [hobsB, hdc]
    simp
  · exact ⟨_, by rw [hobsB]; exact List.getLast?_concat xs⟩
  · rw [hobsB, List.dropLast_concat]
    exact hxs

/- ============================================================ -/
/- C3                                                           -/
/- ============================================================ -/

/-- C3 counterexample: after a successful first attempt whose collaborator
reported version "essentia-2.1", a later init() call resolves with the
literal string "cached" — not the collaborator's reported version string,
contradicting the claim that every successful init() call (including calls
made after a prior success) resolves with the version string. -/
theorem init_version_claim_counterexample :
    initResolvedString (fun _ => "essentia-2.1")
        (ensureInit (onInitReady (ensureInit initStateStart).2)).1 = "cached"
    ∧ "cached" ≠ "essentia-2.1" := by
  exact ⟨rfl, by decide⟩

/-- C3 (amended): init() is idempotent and single-flight.  Two calls made
before the first attempt resolves share exactly one underlying startup
attempt and both observe the collaborator's version string of that
attempt; a successful attempt is cached for the process lifetime (later
calls change nothing and start no attempt), but such later calls resolve
with the fixed string 'cached' rather than the version string; a failed
attempt clears the cached attempt so a later init() call starts a new
one. -/
theorem init_single_flight (version : Nat → String) :
    ((ensureInit initStateStart).1 = InitCallRes.awaiting 0
      ∧ (ensureInit (ensureInit initStateStart).2).1 = InitCallRes.awaiting 0
      ∧ (ensureInit (ensureInit initStateStart).2).2.attemptsStarted = 1
      ∧ initResolvedString version (ensureInit initStateStart).1 = version 0
      ∧ initResolvedString version (ensureInit (ensureInit initStateStart).2).1 = version 0)
    ∧ (∀ s : InitState,
        (ensureInit (onInitReady s)).1 = InitCallRes.cached
        ∧ (ensureInit (onInitReady s)).2 = onInitReady s
        ∧ initResolvedString version (ensureInit (onInitReady s)).1 = "cached")
    ∧ ((ensureInit (onInitError (ensureInit initStateStart).2)).1 = InitCallRes.awaiting 1
      ∧ (ensureInit (onInitError (ensureInit initStateStart).2)).2.attemptsStarted = 2) := by
  refine ⟨⟨rfl, rfl, rfl, rfl, rfl⟩, ?_, ⟨rfl, rfl⟩⟩
  intro s
  refine ⟨?_, ?_, ?_⟩ <;> simp [ensureInit, onInitReady, initResolvedString]

/- ============================================================ -/
/- Lemmas about the sample-rate sniffer                         -/
/- ============================================================ -/

theorem u8at_append_add (ctx l : List Nat) (i : Nat) :
    u8at (ctx ++ l) (ctx.length + i) = u8at l i := by
  unfold u8at
  rw [List.getD_append_right ctx l 0 (ctx.length + i) (by omega)]
  congr 1
  omega

theorem readUint32LE_append_add (ctx l : List Nat) (i : Nat) :
    readUint32LE (ctx ++ l) (ctx.length + i) = readUint32LE l i := by
  unfold readUint32LE
  rw [show ctx.length + i + 1 = ctx.length + (i + 1) by omega,
    show ctx.length + i + 2 = ctx.length + (i + 2) by omega,
    show ctx.length + i + 3 = ctx.length + (i + 3) by omega,
    u8at_append_add, u8at_append_add, u8at_append_add, u8at_append_add]

theorem exists_four_of_length (l : List Nat) (h : l.length = 4) :
    ∃ a b c d, l = [a, b, c, d] := by
  match l, h with
  | [a, b, c, d], _ => exact ⟨a, b, c, d, rfl⟩

theorem chunkBytes_length (id body : List Nat) (hid : id.length = 4) :
    (chunkBytes id body).length
      = 8 + body.length + (if body.length % 2 ≠ 0 then 1 else 0) := by
  simp only [chunkBytes, leBytes4, List.length_append, hid]
  split <;> simp

theorem fmtChunkBytes_length (af ch rate br ba bits : Nat) :
    (fmtChunkBytes af ch rate br ba bits).length = 24 := by
  simp [fmtChunkBytes, fmtChunkId, leBytes2, leBytes4]

theorem wavFindFmt_skip (ctx id body tail : List Nat)
    (hid : id.length = 4) (hne : id ≠ fmtChunkId)
    (hsz : body.length < 4294967296) (htail : tail ≠ []) :
    wavFindFmt (ctx ++ (chunkBytes id body ++ tail)) ctx.length
      = wavFindFmt (ctx ++ (chunkBytes id body ++ tail))
          (ctx.length + (chunkBytes id body).length) := by
  obtain ⟨a0, a1, a2, a3, rfl⟩ := exists_four_of_length id hid
  have hne' : ¬(a0 = 0x66 ∧ a1 = 0x6D ∧ a2 = 0x74 ∧ a3 = 0x20) := by
    simpa [fmtChunkId] using hne
  have htail' : 0 < tail.length := List.length_pos.mpr htail
  have hclen := chunkBytes_length [a0, a1, a2, a3] body rfl
  have hblen : (ctx ++ (chunkBytes [a0, a1, a2, a3] body ++ tail)).length
      = ctx.length + (chunkBytes [a0, a1, a2, a3] body).length + tail.length := by
    simp [List.length_append]
    omega
  have hg : ctx.length + 8 < (ctx ++ (chunkBytes [a0, a1, a2, a3] body ++ tail)).length := by
    omega
  have e0 : u8at (ctx ++ (chunkBytes [a0, a1, a2, a3] body ++ tail)) ctx.length = a0 := by
    simpa using u8at_append_add ctx (chunkBytes [a0, a1, a2, a3] body ++ tail) 0
  have e1 : u8at (ctx ++ (chunkBytes [a0, a1, a2, a3] body ++ tail)) (ctx.length + 1) = a1 :=
    u8at_append_add ctx (chunkBytes [a0, a1, a2, a3] body ++ tail) 1
  have e2 : u8at (ctx ++ (chunkBytes [a0, a1, a2, a3] body ++ tail)) (ctx.length + 2) = a2 :=
    u8at_append_add ctx (chunkBytes [a0, a1, a2, a3] body ++ tail) 2
  have e3 : u8at (ctx ++ (chunkBytes [a0, a1, a2, a3] body ++ tail)) (ctx.length + 3) = a3 :=
    u8at_append_add ctx (chunkBytes [a0, a1, a2, a3] body ++ tail) 3
  have hsize : readUint32LE (ctx ++ (chunkBytes [a0, a1, a2, a3] body ++ tail))
      (ctx.length + 4) = body.length := by
    rw [readUint32LE_append_add]
    show body.length % 256 + 256 * (body.length / 256 % 256)
      + 65536 * (body.length / 65536 % 256)
      + 16777216 * (body.length / 16777216 % 256) = body.length
    omega
  rw [wavFindFmt, dif_pos hg]
  simp only [hsize, e0, e1, e2, e3]
  rw [if_neg (by rintro ⟨x0, x1, x2, x3, -⟩; exact hne' ⟨x0, x1, x2, x3⟩)]
  congr 1
  omega

theorem wavFindFmt_found (ctx : List Nat) (af ch rate br ba bits : Nat)
    (suffix : List Nat) (hrate : rate < 4294967296) :
    wavFindFmt (ctx ++ (fmtChunkBytes af ch rate br ba bits ++ suffix))
      ctx.length = some rate := by
  have hblen : (ctx ++ (fmtChunkBytes af ch rate br ba bits ++ suffix)).length
      = ctx.length + 24 + suffix.length := by
    simp [List.length_append, fmtChunkBytes_length]
    omega
  have hg : ctx.length + 8 < (ctx ++ (fmtChunkBytes af ch rate br ba bits ++ suffix)).length := by
    omega
  have e0 : u8at (ctx ++ (fmtChunkBytes af ch rate br ba bits ++ suffix)) ctx.length = 0x66 := by
    simpa using u8at_append_add ctx (fmtChunkBytes af ch rate br ba bits ++ suffix) 0
  have e1 : u8at (ctx ++ (fmtChunkBytes af ch rate br ba bits ++ suffix)) (ctx.length + 1) = 0x6D :=
    u8at_append_add ctx (fmtChunkBytes af ch rate br ba bits ++ suffix) 1
  have e2 : u8at (ctx ++ (fmtChunkBytes af ch rate br ba bits ++ suffix)) (ctx.length + 2) = 0x74 :=
    u8at_append_add ctx (fmtChunkBytes af ch rate br ba bits ++ suffix) 2
  have e3 : u8at (ctx ++ (fmtChunkBytes af ch rate br ba bits ++ suffix)) (ctx.length + 3) = 0x20 :=
    u8at_append_add ctx (fmtChunkBytes af ch rate br ba bits ++ suffix) 3
  have hread : readUint32LE (ctx ++ (fmtChunkBytes af ch rate br ba bits ++ suffix))
      (ctx.length + 12) = rate := by
    rw [readUint32LE_append_add]
    show rate % 256 + 256 * (rate / 256 % 256) + 65536 * (rate / 65536 % 256)
      + 16777216 * (rate / 16777216 % 256) = rate
    omega
  rw [wavFindFmt, dif_pos hg]
  simp only [e0, e1, e2, e3]
  rw [if_pos ⟨trivial, trivial, trivial, trivial, by omega⟩]
  rw [hread]

theorem wavFindFmt_walk (af ch rate br ba bits : Nat) (suffix : List Nat)
    (hrate : rate < 4294967296) (pre : List (List Nat × List Nat)) :
    ∀ ctx : List Nat,
      (∀ c ∈ pre, c.1.length = 4 ∧ c.1 ≠ fmtChunkId ∧ c.2.length < 4294967296) →
      wavFindFmt (ctx ++ ((pre.map (fun c => chunkBytes c.1 c.2)).flatten
          ++ (fmtChunkBytes af ch rate br ba bits ++ suffix))) ctx.length = some rate := by
  induction pre with
  | nil =>
    intro ctx _
    simpa using wavFindFmt_found ctx af ch rate br ba bits suffix hrate
  | cons c pre ih =>
    intro ctx hc
    obtain ⟨h4, hne, hsz⟩ := hc c (by simp)
    have hfmtne : fmtChunkBytes af ch rate br ba bits ++ suffix ≠ [] := by
      intro hcontra
      have := congrArg List.length hcontra
      simp [fmtChunkBytes_length] at this
    have htailne : (pre.map (fun c => chunkBytes c.1 c.2)).flatten
        ++ (fmtChunkBytes af ch rate br ba bits ++ suffix) ≠ [] := by
      intro hcontra
      rcases List.append_eq_nil.mp hcontra with ⟨-, h2⟩
      exact hfmtne h2
    have hskip := wavFindFmt_skip ctx c.1 c.2
      ((pre.map (fun c => chunkBytes c.1 c.2)).flatten
        ++ (fmtChunkBytes af ch rate br ba bits ++ suffix)) h4 hne hsz htailne
    have hstep := ih (ctx ++ chunkBytes c.1 c.2) (fun d hd => hc d (by simp [hd]))
    simp only [List.map_cons, List.flatten_cons, List.append_assoc] at hskip hstep ⊢
    rw [hskip]
    simpa [List.length_append] using hstep

/- ============================================================ -/
/- C8                                                           -/
/- ============================================================ -/

/-- C8: a well-formed WAV byte sequence (RIFF/WAVE magic, chunk walk from
offset 12 with little-endian 32-bit sizes and odd-size padding, a fmt
chunk declaring rate R, more than 44 bytes total) sniffs to exactly R for
every R below 2^32 — in particular 44100, 48000 and 96000; and a byte
sequence with fLaC magic (and more than 21 bytes) whose STREAMINFO 20-bit
rate field at bytes 18–20 encodes 44100 sniffs to 44100. -/
theorem sampleRateSniffer_wav_flac :
    (∀ (riffSize : Nat) (pre : List (List Nat × List Nat))
        (af ch rate br ba bits : Nat) (suffix : List Nat),
      rate < 4294967296 →
      (∀ c ∈ pre, c.1.length = 4 ∧ c.1 ≠ fmtChunkId ∧ c.2.length < 4294967296) →
      44 < (wavBytes riffSize pre af ch rate br ba bits suffix).length →
      getOriginalSampleRate (wavBytes riffSize pre af ch rate br ba bits suffix)
        = some rate)
    ∧ (∀ b : List Nat, 21 < b.length →
        u8at b 0 = 0x66 → u8at b 1 = 0x4C → u8at b 2 = 0x61 → u8at b 3 = 0x43 →
        (u8at b 18 <<< 12) ||| (u8at b 19 <<< 4) ||| (u8at b 20 >>> 4) = 44100 →
        getOriginalSampleRate b = some 44100) := by
  constructor
  · intro riffSize pre af ch rate br ba bits suffix hrate hpre hlen
    have hassoc : wavBytes riffSize pre af ch rate br ba bits suffix
        = ([0x52, 0x49, 0x46, 0x46] ++ leBytes4 riffSize ++ [0x57, 0x41, 0x56, 0x45])
          ++ ((pre.map (fun c => chunkBytes c.1 c.2)).flatten
            ++ (fmtChunkBytes af ch rate br ba bits ++ suffix)) := by
      simp [wavBytes, List.append_assoc]
    have hctxlen : ([0x52, 0x49, 0x46, 0x46] ++ leBytes4 riffSize
        ++ [0x57, 0x41, 0x56, 0x45] : List Nat).length = 12 := by
      simp [leBytes4]
    have hwalk := wavFindFmt_walk af ch rate br ba bits suffix hrate pre
      ([0x52, 0x49, 0x46, 0x46] ++ leBytes4 riffSize ++ [0x57, 0x41, 0x56, 0x45]) hpre
    rw [hctxlen] at hwalk
    have hfmt : wavFindFmt (wavBytes riffSize pre af ch rate br ba bits suffix) 12
        = some rate := by
      rw [hassoc]
      exact hwalk
    unfold getOriginalSampleRate
    rw [if_pos ⟨hlen, rfl, rfl, rfl, rfl, rfl, rfl, rfl, rfl⟩, hfmt]
  · intro b h21 h0 h1 h2 h3 henc
    unfold getOriginalSampleRate
    rw [if_neg (by rintro ⟨-, hw, -⟩; rw [h0] at hw; norm_num at hw)]
    unfold sniffAfterWav
    rw [if_pos ⟨h21, h0, h1, h2, h3⟩, henc]

/-- C8 witness: the theorem applied to a concrete WAV with one LIST chunk
before fmt (rate 44100) and a concrete 22-byte FLAC STREAMINFO header
encoding 44100. -/
theorem sampleRateSniffer_wav_flac_witness :
    getOriginalSampleRate (wavBytes 100 [([0x4C, 0x49, 0x53, 0x54], [1, 2, 3])]
        1 2 44100 176400 4 16 (chunkBytes [0x64, 0x61, 0x74, 0x61] [])) = some 44100
    ∧ getOriginalSampleRate ([0x66, 0x4C, 0x61, 0x43] ++ List.replicate 14 0
        ++ [0x0A, 0xC4, 0x44, 0]) = some 44100 := by
  constructor
  · exact sampleRateSniffer_wav_flac.1 100 [([0x4C, 0x49, 0x53, 0x54], [1, 2, 3])]
      1 2 44100 176400 4 16 (chunkBytes [0x64, 0x61, 0x74, 0x61] [])
      (by decide) (by decide) (by decide)
  · exact sampleRateSniffer_wav_flac.2
      ([0x66, 0x4C, 0x61, 0x43] ++ List.replicate 14 0 ++ [0x0A, 0xC4, 0x44, 0])
      (by decide) (by decide) (by decide) (by decide) (by decide) (by decide)

/- ============================================================ -/
/- C9                                                           -/
/- ============================================================ -/

theorem processBatchItem_spec (it : BatchItem) (beh : BatchItemBeh)
    (hp : it.status = BatchStatus.pending)
    (hm : exceptMsgOk beh.decode = true ∧ exceptMsgOk beh.analyze = true) :
    (processBatchItem it beh).id = it.id
    ∧ ((beh.decode.isOk = true ∧ beh.analyze.isOk = true) →
        (processBatchItem it beh).status = BatchStatus.done)
    ∧ (¬(beh.decode.isOk = true ∧ beh.analyze.isOk = true) →
        (processBatchItem it beh).status = BatchStatus.error
        ∧ ∃ m, (processBatchItem it beh).errorMsg = some m ∧ m ≠ "") := by
  unfold processBatchItem
  rw [if_neg (by simp [hp])]
  cases hd : beh.decode with
  | error e =>
    refine ⟨rfl, ?_, ?_⟩
    · rintro ⟨h1, -⟩
      simp [Except.isOk, Except.toBool] at h1
    · intro _
      refine ⟨rfl, jsThrownMessage e, rfl, ?_⟩
      have hne := hm.1
      rw [hd] at hne
      cases e with
      | errObj m => simpa [exceptMsgOk, jsThrownMessage] using hne
      | nonError => simp [jsThrownMessage]
  | ok fi =>
    cases ha : beh.analyze with
    | error e =>
      refine ⟨rfl, ?_, ?_⟩
      · rintro ⟨-, h2⟩
        simp [Except.isOk, Except.toBool] at h2
      · intro _
        refine ⟨rfl, jsThrownMessage e, rfl, ?_⟩
        have hne := hm.2
        rw [ha] at hne
        cases e with
        | errObj m => simpa [exceptMsgOk, jsThrownMessage] using hne
        | nonError => simp [jsThrownMessage]
    | ok pa =>
      exact ⟨rfl, fun _ => rfl, fun hn => absurd ⟨rfl, rfl⟩ hn⟩

/-- C9: with init succeeding and a queue of pending items, the batch
processes every item in original order (output aligned index by index,
ids preserved); an item whose decode and analyze both succeed ends in
status done; an item whose decode or analyze throws ends in status error
with a non-empty message (assuming thrown Error objects carry non-empty
messages, as the decoder's errors do; non-Error throws get a fixed
non-empty default) — and a single item's failure never aborts the batch:
every other item's final state is unaffected. -/
theorem batch_failure_isolation (items : List (BatchItem × BatchItemBeh))
    (hpend : ∀ p ∈ items, p.1.status = BatchStatus.pending)
    (hmsg : ∀ p ∈ items, exceptMsgOk p.2.decode = true ∧ exceptMsgOk p.2.analyze = true) :
    (startAnalysis true items).length = items.length
    ∧ ∀ (i : Nat) (h1 : i < (startAnalysis true items).length) (h2 : i < items.length),
        ((startAnalysis true items).get ⟨i, h1⟩).id = ((items.get ⟨i, h2⟩).1).id
        ∧ (((items.get ⟨i, h2⟩).2.decode.isOk = true
            ∧ (items.get ⟨i, h2⟩).2.analyze.isOk = true) →
            ((startAnalysis true items).get ⟨i, h1⟩).status = BatchStatus.done)
        ∧ (¬((items.get ⟨i, h2⟩).2.decode.isOk = true
            ∧ (items.get ⟨i, h2⟩).2.analyze.isOk = true) →
            ((startAnalysis true items).get ⟨i, h1⟩).status = BatchStatus.error
            ∧ ∃ m, ((startAnalysis true items).get ⟨i, h1⟩).errorMsg = some m ∧ m ≠ "") := by
  constructor
  · simp [startAnalysis]
  · intro i h1 h2
    have hget : (startAnalysis true items).get ⟨i, h1⟩
        = processBatchItem (items.get ⟨i, h2⟩).1 (items.get ⟨i, h2⟩).2 := by
      simp [startAnalysis]
    have hmem : items.get ⟨i, h2⟩ ∈ items := List.get_mem items i h2
    have hspec := processBatchItem_spec (items.get ⟨i, h2⟩).1 (items.get ⟨i, h2⟩).2
      (hpend _ hmem) (hmsg _ hmem)
    rw [hget]
    exact ⟨hspec.1, hspec.2.1, hspec.2.2⟩

/-- C9 witness: the theorem applied to the concrete three-item batch in
which item 2's decode throws. -/
theorem batch_failure_isolation_witness :
    (startAnalysis true witnessBatchItems).length = witnessBatchItems.length
    ∧ ∀ (i : Nat) (h1 : i < (startAnalysis true witnessBatchItems).length)
        (h2 : i < witnessBatchItems.length),
        ((startAnalysis true witnessBatchItems).get ⟨i, h1⟩).id
          = ((witnessBatchItems.get ⟨i, h2⟩).1).id
        ∧ (((witnessBatchItems.get ⟨i, h2⟩).2.decode.isOk = true
            ∧ (witnessBatchItems.get ⟨i, h2⟩).2.analyze.isOk = true) →
            ((startAnalysis true witnessBatchItems).get ⟨i, h1⟩).status = BatchStatus.done)
        ∧ (¬((witnessBatchItems.get ⟨i, h2⟩).2.decode.isOk = true
            ∧ (witnessBatchItems.get ⟨i, h2⟩).2.analyze.isOk = true) →
            ((startAnalysis true witnessBatchItems).get ⟨i, h1⟩).status = BatchStatus.error
            ∧ ∃ m, ((startAnalysis true witnessBatchItems).get ⟨i, h1⟩).errorMsg
                = some m ∧ m ≠ "") :=
  batch_failure_isolation witnessBatchItems
    (by intro p hp; simp only [witnessBatchItems, List.mem_cons, List.not_mem_nil, or_false] at hp;
        rcases hp with rfl | rfl | rfl <;> rfl)
    (by intro p hp; simp only [witnessBatchItems, List.mem_cons, List.not_mem_nil, or_false] at hp;
        rcases hp with rfl | rfl | rfl <;> exact ⟨rfl, rfl⟩)

/- ============================================================ -/
/- C10                                                          -/
/- ============================================================ -/

/-- C10: neither `analyze` nor `analyzeBpmKey` modifies or invalidates the
caller's arrays.  For any well-formed allocator state (caller ids below
`nextId`): the caller's buffers are unchanged after the send (in
particular not detached); the transferred payload is a faithful copy of
the caller's contents; and no transferred buffer id is a caller id — only
the fresh copies cross the boundary. -/
theorem caller_buffers_preserved (s : MemState) (audioData : ArrRef)
    (leftChannel rightChannel : Option ArrRef)
    (ha : audioData.id < s.nextId)
    (hl : ∀ a, leftChannel = some a → a.id < s.nextId)
    (hr : ∀ a, rightChannel = some a → a.id < s.nextId) :
    ((analyzeSend s audioData leftChannel rightChannel).2.2.heap audioData.id
        = s.heap audioData.id
      ∧ (∀ a, leftChannel = some a →
          (analyzeSend s audioData leftChannel rightChannel).2.2.heap a.id
            = s.heap a.id)
      ∧ (∀ a, rightChannel = some a →
          (analyzeSend s audioData leftChannel rightChannel).2.2.heap a.id
            = s.heap a.id)
      ∧ (analyzeSend s audioData leftChannel rightChannel).1.1
          = readArr s (leftChannel.getD audioData)
      ∧ (analyzeSend s audioData leftChannel rightChannel).1.2
          = readArr s (rightChannel.getD audioData)
      ∧ (∀ t ∈ (analyzeSend s audioData leftChannel rightChannel).2.1,
          audioData.id ≠ t
          ∧ (∀ a, leftChannel = some a → a.id ≠ t)
          ∧ (∀ a, rightChannel = some a → a.id ≠ t)))
    ∧ ((bpmKeySend s audioData).2.2.heap audioData.id = s.heap audioData.id
      ∧ (bpmKeySend s audioData).1 = readArr s audioData
      ∧ ∀ t ∈ (bpmKeySend s audioData).2.1, audioData.id ≠ t) := by
  have hlsrc : (leftChannel.getD audioData).id < s.nextId := by
    cases leftChannel with
    | none => simpa using ha
    | some a => simpa using hl a rfl
  have hrsrc : (rightChannel.getD audioData).id < s.nextId := by
    cases rightChannel with
    | none => simpa using ha
    | some a => simpa using hr a rfl
  refine ⟨⟨?_, ?_, ?_, ?_, ?_, ?_⟩, ⟨?_, ?_, ?_⟩⟩
  · simp only [analyzeSend, newFloat32From, transferBuffers]
    simp only [List.mem_cons, List.not_mem_nil, or_false]
    rw [if_neg (by omega), if_neg (by omega), if_neg (by omega)]
  · intro a haeq
    have haid : a.id < s.nextId := hl a haeq
    simp only [analyzeSend, newFloat32From, transferBuffers]
    simp only [List.mem_cons, List.not_mem_nil, or_false]
    rw [if_neg (by omega), if_neg (by omega), if_neg (by omega)]
  · intro a haeq
    have haid : a.id < s.nextId := hr a haeq
    simp only [analyzeSend, newFloat32From, transferBuffers]
    simp only [List.mem_cons, List.not_mem_nil, or_false]
    rw [if_neg (by omega), if_neg (by omega), if_neg (by omega)]
  · simp only [analyzeSend, newFloat32From, readArr]
    simp
  · simp only [analyzeSend, newFloat32From, readArr]
    rw [if_neg (by omega : ¬((rightChannel.getD audioData).id = s.nextId))]
    simp
  · intro t ht
    simp only [analyzeSend] at ht
    simp only [List.mem_cons, List.not_mem_nil, or_false] at ht
    refine ⟨?_, ?_, ?_⟩
    · rcases ht with rfl | rfl
      · simp only [newFloat32From]; omega
      · simp only [newFloat32From]; omega
    · intro a haeq
      have haid : a.id < s.nextId := hl a haeq
      rcases ht with rfl | rfl
      · simp only [newFloat32From]; omega
      · simp only [newFloat32From]; omega
    · intro a haeq
      have haid : a.id < s.nextId := hr a haeq
      rcases ht with rfl | rfl
      · simp only [newFloat32From]; omega
      · simp only [newFloat32From]; omega
  · simp only [bpmKeySend, newFloat32From, transferBuffers]
    simp only [List.mem_cons, List.not_mem_nil, or_false]
    rw [if_neg (by omega), if_neg (by omega)]
  · simp only [bpmKeySend, newFloat32From, readArr]
    simp
  · intro t ht
    simp only [bpmKeySend, newFloat32From] at ht
    simp only [List.mem_cons, List.not_mem_nil, or_false] at ht
    subst ht
    omega

/-- C10 witness: the theorem applied to a concrete one-buffer state. -/
theorem caller_buffers_preserved_witness :
    let s : MemState := { heap := fun i => if i = 0 then some [1, 0, -1] else none,
                          nextId := 1 }
    ((analyzeSend s ⟨0⟩ none none).2.2.heap 0 = s.heap 0
      ∧ (∀ a, (none : Option ArrRef) = some a →
          (analyzeSend s ⟨0⟩ none none).2.2.heap a.id = s.heap a.id)
      ∧ (∀ a, (none : Option ArrRef) = some a →
          (analyzeSend s ⟨0⟩ none none).2.2.heap a.id = s.heap a.id)
      ∧ (analyzeSend s ⟨0⟩ none none).1.1 = readArr s ((none : Option ArrRef).getD ⟨0⟩)
      ∧ (analyzeSend s ⟨0⟩ none none).1.2 = readArr s ((none : Option ArrRef).getD ⟨0⟩)
      ∧ (∀ t ∈ (analyzeSend s ⟨0⟩ none none).2.1,
          (ArrRef.mk 0).id ≠ t
          ∧ (∀ a, (none : Option ArrRef) = some a → a.id ≠ t)
          ∧ (∀ a, (none : Option ArrRef) = some a → a.id ≠ t)))
    ∧ ((bpmKeySend s ⟨0⟩).2.2.heap 0 = s.heap 0
      ∧ (bpmKeySend s ⟨0⟩).1 = readArr s ⟨0⟩
      ∧ ∀ t ∈ (bpmKeySend s ⟨0⟩).2.1, (ArrRef.mk 0).id ≠ t) :=
  caller_buffers_preserved
    { heap := fun i => if i = 0 then some [1, 0, -1] else none, nextId := 1 }
    ⟨0⟩ none none (by decide)
    (fun a h => by simp at h) (fun a h => by simp at h)
